import Mathlib

/-!
Verification of the batch transfer engine of the Veeva Vault loader
(`js/api.js` and `js/app.js`): pull pagination with adaptive retry,
operation-aware batched push with per-batch result logging, metadata
collection, and heuristic column mapping.

The JavaScript is shallowly embedded: network exchanges are modelled by
oracle functions (an `Option`/sum result standing for the resolved or
rejected `fetch`), records are ordered string-to-string maps, and the
sequential `await` loops become structural recursions that also report
the requests issued and the progress-callback invocations, so that
theorems can speak about the interaction trace.
-/

namespace VaultLoader

/-- Record as produced by the engine: an ordered mapping from field name
to string value (`js/api.js` coerces every value it keeps to a string). -/
abbrev Record := List (String × String)

/-- Removal of the first occurrence of a character, the semantics of the
JavaScript `String.prototype.replace(c, '')` with a single-character
search string, as used in `pullData`'s bracket cleaning. -/
def removeFirst (c : Char) : List Char → List Char
  | [] => []
  | x :: xs => if x = c then xs else x :: removeFirst c xs

/-- Value cleaning in `pullData` (`js/api.js` lines 207 and 251):
`record[key].replace('[', '').replace(']', '')`. -/
def cleanValue (s : String) : String :=
  String.mk (removeFirst ']' (removeFirst '[' s.data))

/-- Cleaning applied to every (string) value of a fetched record. -/
def cleanRecord (r : Record) : Record :=
  r.map (fun p => (p.1, cleanValue p.2))

/-- Mutable state of the `while (moreData)` pagination loop of
`pullData`: the offset cursor, the accumulated records and the
`moreData` flag. -/
structure PullState where
  offset : Nat
  allData : List Record
  moreData : Bool
  deriving Repr, DecidableEq

/-- Result of one iteration of the pagination loop: the updated state,
the page requests issued (limit, offset) in order, and the arguments of
the `progressCallback` invocations. -/
structure PullStepOut where
  state : PullState
  requests : List (Nat × Nat)
  progressCalls : List Nat
  deriving Repr, DecidableEq

/-- One iteration of the `while (moreData)` loop of `pullData`
(`js/api.js` lines 183-276).  `fetch limit offset` is `none` when the
page request rejects or returns a non-success status, and `some records`
when it resolves (a missing `data` array is the empty list).  On primary
failure the batch size is halved; if the half is still at least 10 a
single retry is issued at the halved size, otherwise the loop skips
ahead by the original batch size. -/
def pullStep (fetch : Nat → Nat → Option (List Record)) (batchSize : Nat)
    (s : PullState) : PullStepOut :=
  match fetch batchSize s.offset with
  | some records =>
    if records.length = 0 then
      { state := { offset := s.offset, allData := s.allData, moreData := false },
        requests := [(batchSize, s.offset)], progressCalls := [] }
    else
      { state := { offset := s.offset + batchSize,
                   allData := s.allData ++ records.map cleanRecord,
                   moreData := s.moreData },
        requests := [(batchSize, s.offset)],
        progressCalls := [s.allData.length + records.length] }
  | none =>
    if 10 ≤ batchSize / 2 then
      match fetch (batchSize / 2) s.offset with
      | some retryRecords =>
        if retryRecords.length = 0 then
          { state := { offset := s.offset, allData := s.allData, moreData := false },
            requests := [(batchSize, s.offset), (batchSize / 2, s.offset)],
            progressCalls := [] }
        else
          { state := { offset := s.offset + batchSize / 2,
                       allData := s.allData ++ retryRecords.map cleanRecord,
                       moreData := s.moreData },
            requests := [(batchSize, s.offset), (batchSize / 2, s.offset)],
            progressCalls := [s.allData.length + retryRecords.length] }
      | none =>
        { state := { offset := s.offset + batchSize / 2, allData := s.allData,
                     moreData := s.moreData },
          requests := [(batchSize, s.offset), (batchSize / 2, s.offset)],
          progressCalls := [] }
    else
      { state := { offset := s.offset + batchSize, allData := s.allData,
                   moreData := s.moreData },
        requests := [(batchSize, s.offset)], progressCalls := [] }

/-- Driver of the pagination loop: iterates `pullStep` while `moreData`
holds, accumulating the interaction trace.  The fuel argument bounds the
number of iterations (the JavaScript loop has no such bound; every claim
below is about the per-iteration behaviour). -/
def pullLoop (fetch : Nat → Nat → Option (List Record)) (batchSize : Nat) :
    Nat → PullState → PullState × List (Nat × Nat) × List Nat
  | 0, s => (s, [], [])
  | fuel + 1, s =>
    if s.moreData then
      ((pullLoop fetch batchSize fuel (pullStep fetch batchSize s).state).1,
       (pullStep fetch batchSize s).requests ++
         (pullLoop fetch batchSize fuel (pullStep fetch batchSize s).state).2.1,
       (pullStep fetch batchSize s).progressCalls ++
         (pullLoop fetch batchSize fuel (pullStep fetch batchSize s).state).2.2)
    else (s, [], [])

/-- Entry point of `pullData`: offset cursor starts at 0 with no
accumulated data. -/
def pullData (fetch : Nat → Nat → Option (List Record)) (batchSize fuel : Nat) :
    PullState × List (Nat × Nat) × List Nat :=
  pullLoop fetch batchSize fuel { offset := 0, allData := [], moreData := true }

/-- Operation-dependent batch-size clamp of `pushData` (`js/api.js` line
300): merge is capped at 10, every other operation at 500. -/
def actualBatchSize (operation : String) (batchSize : Nat) : Nat :=
  if operation = "merge" then min batchSize 10 else min batchSize 500

/-- Batch slicing loop of `pushData` (`js/api.js` lines 303-306):
`for (let i = 0; i < data.length; i += actualBatchSize)
   batches.push(data.slice(i, i + actualBatchSize))`. -/
def mkBatches (n : Nat) (data : List α) : List (List α) :=
  match n, data with
  | _, [] => []
  | 0, _ :: _ => []
  | m + 1, x :: xs =>
    (x :: xs).take (m + 1) :: mkBatches (m + 1) ((x :: xs).drop (m + 1))
termination_by data.length
decreasing_by simp [List.length_drop]; omega

/-- Batches submitted by `pushData` for a given operation and requested
batch size. -/
def pushBatches (operation : String) (batchSize : Nat) (data : List Record) :
    List (List Record) :=
  mkBatches (actualBatchSize operation batchSize) data

/-- Outcome of one write request in `pushData`: the promise resolves
with a success status, resolves with a non-success status, or rejects
(network error), in which case only a message and a stack trace are
available. -/
inductive FetchOutcome where
  | ok (status : Nat) (text : String)
  | httpError (status : Nat) (text : String)
  | netError (msg : String) (trace : String)
  deriving Repr, DecidableEq

/-- Status field of a `pushData` log entry: either the HTTP status code
or the literal string sentinel used when the request throws. -/
inductive BatchStatus where
  | http (code : Nat)
  | errorSentinel
  deriving Repr, DecidableEq

/-- One entry of `results.logs` in `pushData`: 1-based batch index,
status, human message and the raw response body or error trace. -/
structure LogEntry where
  batch : Nat
  status : BatchStatus
  message : String
  response : String
  deriving Repr, DecidableEq

/-- Whether a fetch outcome counts as `response.ok`. -/
def isOk : FetchOutcome → Bool
  | .ok _ _ => true
  | _ => false

/-- Log entry appended for the batch at 0-based index `i` given the
outcome of its request (`js/api.js` lines 351-376). -/
def mkLogEntry (i : Nat) (o : FetchOutcome) : LogEntry :=
  match o with
  | .ok status text =>
    { batch := i + 1, status := .http status,
      message := s!"Batch {i + 1} processed successfully", response := text }
  | .httpError status text =>
    { batch := i + 1, status := .http status,
      message := s!"Batch {i + 1} failed: {status}", response := text }
  | .netError msg trace =>
    { batch := i + 1, status := .errorSentinel,
      message := s!"Batch {i + 1} failed: {msg}", response := trace }

/-- Aggregated result of `pushData` (`js/api.js` lines 308-313). -/
structure PushResult where
  total : Nat
  success : Nat
  failures : Nat
  logs : List LogEntry
  deriving Repr, DecidableEq

/-- HTTP verb chosen by the operation switch of `pushData`
(`js/api.js` lines 325-339); the default is `POST`. -/
def pushMethod (operation : String) : String :=
  if operation = "update" then "PUT"
  else if operation = "delete" then "DELETE"
  else "POST"

/-- Target URL chosen by the operation switch of `pushData`: merge goes
to the dedicated merge action endpoint. -/
def pushUrl (apiUrl objectName operation : String) : String :=
  if operation = "merge" then
    apiUrl ++ "/api/v24.1/vobjects/" ++ objectName ++ "/actions/merge"
  else
    apiUrl ++ "/api/v24.1/vobjects/" ++ objectName

/-- Sequential batch-processing loop of `pushData` (`js/api.js` lines
316-382).  `net i` is the outcome of the request for the batch at
0-based index `i`.  Returns success count, failure count, the log in
submission order, and the `progressCallback` invocations
`(batchIndexCompleted, totalBatches)`. -/
def pushLoop (net : Nat → FetchOutcome) (total : Nat) :
    Nat → List (List Record) → Nat × Nat × List LogEntry × List (Nat × Nat)
  | _, [] => (0, 0, [], [])
  | i, _ :: rest =>
    ((if isOk (net i) then (pushLoop net total (i + 1) rest).1 + 1
      else (pushLoop net total (i + 1) rest).1),
     (if isOk (net i) then (pushLoop net total (i + 1) rest).2.1
      else (pushLoop net total (i + 1) rest).2.1 + 1),
     mkLogEntry i (net i) :: (pushLoop net total (i + 1) rest).2.2.1,
     (i + 1, total) :: (pushLoop net total (i + 1) rest).2.2.2)

/-- The `pushData` operation: clamp the batch size, slice the records
into contiguous batches, submit each batch sequentially and aggregate
the per-batch outcomes.  Returns the result object together with the
list of progress-callback invocations. -/
def pushData (net : Nat → FetchOutcome) (objectName : String)
    (data : List Record) (operation : String) (batchSize : Nat) :
    PushResult × List (Nat × Nat) :=
  ({ total := (pushBatches operation batchSize data).length,
     success := (pushLoop net (pushBatches operation batchSize data).length 0
       (pushBatches operation batchSize data)).1,
     failures := (pushLoop net (pushBatches operation batchSize data).length 0
       (pushBatches operation batchSize data)).2.1,
     logs := (pushLoop net (pushBatches operation batchSize data).length 0
       (pushBatches operation batchSize data)).2.2.1 },
   (pushLoop net (pushBatches operation batchSize data).length 0
     (pushBatches operation batchSize data)).2.2.2)

/-- Lexicographic comparison of character sequences by code point, the
order used by the default `Array.prototype.sort()` on the names compared
here. -/
def lexLt : List Char → List Char → Bool
  | [], [] => false
  | [], _ :: _ => true
  | _ :: _, [] => false
  | x :: xs, y :: ys =>
    if x.toNat < y.toNat then true
    else if y.toNat < x.toNat then false
    else lexLt xs ys

/-- String form of `lexLt`. -/
def strLt (x y : String) : Bool :=
  lexLt x.data y.data

/-- Insertion of a string into an ascending list, mirroring the default
lexicographic `Array.prototype.sort()` used on object and field names. -/
def insertSorted (x : String) : List String → List String
  | [] => [x]
  | y :: ys => if strLt y x then y :: insertSorted x ys else x :: y :: ys

/-- Sorting of object and field name lists (`.sort()` in `js/api.js`
lines 415 and 437). -/
def sortStrings (l : List String) : List String :=
  l.foldr insertSorted []

/-- Object-field pairs contributed by a single object in
`exportMetadata`: a failed or field-less fetch contributes nothing,
a successful fetch contributes one pair per (sorted) field. -/
def objPairs (fetch : String → Option (List String)) (o : String) :
    List (String × String) :=
  match fetch o with
  | some fields => (sortStrings fields).map (fun f => (o, f))
  | none => []

/-- Per-object loop of `exportMetadata` (`js/api.js` lines 421-463):
each object contributes its pairs (or none on failure) and one progress
invocation `(i + 1, totalObjects)` regardless of its outcome. -/
def metaLoop (fetch : String → Option (List String)) (total : Nat) :
    Nat → List String → List (String × String) × List (Nat × Nat)
  | _, [] => ([], [])
  | i, o :: rest =>
    (objPairs fetch o ++ (metaLoop fetch total (i + 1) rest).1,
     (i + 1, total) :: (metaLoop fetch total (i + 1) rest).2)

/-- The `exportMetadata` operation over a fetched object list: sort the
object names, then collect the field pairs per object.  `fetch o` is
`none` when the field request for `o` fails (non-success status, thrown
error, or a response without a field list — all of which contribute zero
pairs). -/
def exportMetadata (fetch : String → Option (List String))
    (objects : List String) : List (String × String) × List (Nat × Nat) :=
  metaLoop fetch (sortStrings objects).length 0 (sortStrings objects)

/-- Field-fetch oracle of the two-object scenario used by the metadata
claims: object A has fields f2, f1 and object B's fetch fails. -/
def exFetch : String → Option (List String) :=
  fun o => if o = "A" then some ["f2", "f1"] else none

/-- ASCII lowercasing, the semantics of `toLowerCase()` on the
identifier-like column and field names handled by `autoMapColumns`. -/
def toLowerCase (s : String) : String :=
  String.mk (s.data.map Char.toLower)

/-- Replacement of the first occurrence of a character by another, the
semantics of the JavaScript `replace('_', ' ')` and `replace(' ', '_')`
calls in `autoMapColumns`. -/
def replaceFirst (a b : Char) : List Char → List Char
  | [] => []
  | x :: xs => if x = a then b :: xs else x :: replaceFirst a b xs

/-- String form of `replaceFirst`. -/
def replaceFirstStr (s : String) (a b : Char) : String :=
  String.mk (replaceFirst a b s.data)

/-- One step of the `forEach` that builds the `vaultFieldsLower` lookup
object: a later field with the same lowercased name overwrites an
earlier one. -/
def lookupStep (key : String) (acc : Option String) (f : String) :
    Option String :=
  if toLowerCase f = key then some f else acc

/-- Lookup `vaultFieldsLower[key]` of `autoMapColumns` (`js/app.js`
lines 524-527): the last vault field whose lowercased name equals
`key`, if any. -/
def lookupLower (vaultFields : List String) (key : String) : Option String :=
  vaultFields.foldl (lookupStep key) none

/-- Match attempted for one column by `autoMapColumns` (`js/app.js`
lines 530-546): exact, then case-insensitive, then case-insensitive
with the first underscore replaced by a space, then case-insensitive
with the first space replaced by an underscore. -/
def autoMapEntry (vaultFields : List String) (column : String) :
    Option String :=
  if column ∈ vaultFields then some column
  else match lookupLower vaultFields (toLowerCase column) with
  | some f => some f
  | none =>
    match lookupLower vaultFields (toLowerCase (replaceFirstStr column '_' ' ')) with
    | some f => some f
    | none =>
      match lookupLower vaultFields (toLowerCase (replaceFirstStr column ' ' '_')) with
      | some f => some f
      | none => none

/-- The `AppState.setColumnMapping` assignment on the mapping object:
overwrite an existing key in place, otherwise append in insertion
order. -/
def setColumnMapping (m : List (String × String)) (k v : String) :
    List (String × String) :=
  if m.any (fun p => p.1 = k) then
    m.map (fun p => if p.1 = k then (k, v) else p)
  else m ++ [(k, v)]

/-- The `AppState.clearColumnMappings` reset (`js/app.js` lines 49-51):
the mapping object is replaced by an empty one. -/
def clearColumnMappings (_ : List (String × String)) :
    List (String × String) := []

/-- The `autoMapColumns` routine (`js/app.js` lines 511-552) acting on
the current mapping state: it first clears all mappings (discarding the
prior automatic or manual state), then maps each column by the first
matching rule. -/
def autoMapColumns (prior : List (String × String))
    (columns vaultFields : List String) : List (String × String) :=
  columns.foldl
    (fun m c =>
      match autoMapEntry vaultFields c with
      | some f => setColumnMapping m c f
      | none => m)
    (clearColumnMappings prior)

lemma removeFirst_of_not_mem (c : Char) (l : List Char) (h : c ∉ l) :
    removeFirst c l = l := by
  induction l with
  | nil => rfl
  | cons x xs ih =>
    have hx : ¬ x = c := fun hxc => h (hxc ▸ List.mem_cons_self x xs)
    have hxs : c ∉ xs := fun hm => h (List.mem_cons_of_mem x hm)
    simp [removeFirst, hx, ih hxs]

lemma removeFirst_append_first (c : Char) (l₁ l₂ : List Char) (h : c ∉ l₁) :
    removeFirst c (l₁ ++ c :: l₂) = l₁ ++ l₂ := by
  induction l₁ with
  | nil => simp [removeFirst]
  | cons x xs ih =>
    have hx : ¬ x = c := fun hxc => h (hxc ▸ List.mem_cons_self x xs)
    have hxs : c ∉ xs := fun hm => h (List.mem_cons_of_mem x hm)
    simp [removeFirst, hx, ih hxs]

/-- Claim C1 (amended): in `pullData`, every string value in every
fetched record — on the primary page request and on the halved-size
retry alike — has exactly its first literal `[` and its first literal
`]` character removed, non-recursively and first-occurrence-only
(`removeFirst` leaves a value without the character unchanged and
deletes exactly the first occurrence otherwise); in particular the
value `"[ABC]"` becomes `"ABC"` and the value `"[A][B]"` becomes
`"A[B]"`. -/
theorem C1_pull_sanitization (fetch : Nat → Nat → Option (List Record))
    (batchSize : Nat) (s : PullState) :
    (∀ records, fetch batchSize s.offset = some records → records ≠ [] →
      (pullStep fetch batchSize s).state.allData
        = s.allData ++ records.map cleanRecord)
    ∧ (∀ records, fetch batchSize s.offset = none → 10 ≤ batchSize / 2 →
      fetch (batchSize / 2) s.offset = some records → records ≠ [] →
      (pullStep fetch batchSize s).state.allData
        = s.allData ++ records.map cleanRecord)
    ∧ (∀ r : Record, cleanRecord r = r.map (fun p => (p.1, cleanValue p.2)))
    ∧ (∀ (c : Char) (l : List Char), c ∉ l → removeFirst c l = l)
    ∧ (∀ (c : Char) (l₁ l₂ : List Char), c ∉ l₁ →
        removeFirst c (l₁ ++ c :: l₂) = l₁ ++ l₂)
    ∧ cleanValue "[ABC]" = "ABC"
    ∧ cleanValue "[A][B]" = "A[B]" := by
  refine ⟨?_, ?_, fun _ => rfl, removeFirst_of_not_mem,
    removeFirst_append_first, by decide, by decide⟩
  · intro records h hne
    have hlen : ¬ records.length = 0 := by
      simpa [List.length_eq_zero] using hne
    simp [pullStep, h, hlen]
  · intro records hfail h10 hr hne
    have hlen : ¬ records.length = 0 := by
      simpa [List.length_eq_zero] using hne
    simp [pullStep, hfail, h10, hr, hlen]

/-- Claim C1 counterexample: a fetched record with value `"[A][B]"` is
stored with the value `"A[B]"` — the code removes the first `]` of the
value (the one directly after `A`), not the last one, so the value does
not become `"A][B"`. -/
theorem C1_counterexample :
    (pullStep (fun _ _ => some [[("v", "[A][B]")]]) 100
        { offset := 0, allData := [], moreData := true }).state.allData
      = [[("v", "A[B]")]]
    ∧ ("A[B]" : String) ≠ "A][B" := by decide

/-- Claim C1 witness: the sanitization equation of the amended claim at
a concrete fetched page. -/
theorem C1_witness :
    (pullStep (fun _ _ => some [[("v", "[ABC]")]]) 100
        { offset := 0, allData := [], moreData := true }).state.allData
      = [] ++ [[("v", "[ABC]")]].map cleanRecord :=
  (C1_pull_sanitization (fun _ _ => some [[("v", "[ABC]")]]) 100
      { offset := 0, allData := [], moreData := true }).1
    [[("v", "[ABC]")]] rfl (by decide)

/-- Claim C3: when the primary page request fails and half the page
size is still at least 10, `pullStep` issues exactly one retry at the
halved size; a successful retry advances the offset by the halved size
and keeps paginating (and every iteration's primary request is at the
original page size, so the reduction is not sticky); a failed retry
still advances the offset by the halved size; when halving would drop
below 10 there is no retry and the offset advances by the original
page size — after any failed page the cursor advances or pagination
ends. -/
theorem C3_adaptive_retry (fetch : Nat → Nat → Option (List Record))
    (batchSize : Nat) (s : PullState)
    (hfail : fetch batchSize s.offset = none) (hpos : 0 < batchSize) :
    (10 ≤ batchSize / 2 →
      (pullStep fetch batchSize s).requests
          = [(batchSize, s.offset), (batchSize / 2, s.offset)]
      ∧ (fetch (batchSize / 2) s.offset = none →
          (pullStep fetch batchSize s).state.offset = s.offset + batchSize / 2)
      ∧ (∀ records, fetch (batchSize / 2) s.offset = some records →
          records ≠ [] →
          (pullStep fetch batchSize s).state.offset = s.offset + batchSize / 2
          ∧ (pullStep fetch batchSize s).state.moreData = s.moreData))
    ∧ (batchSize / 2 < 10 →
      (pullStep fetch batchSize s).requests = [(batchSize, s.offset)]
      ∧ (pullStep fetch batchSize s).state.offset = s.offset + batchSize)
    ∧ (s.offset < (pullStep fetch batchSize s).state.offset
        ∨ (pullStep fetch batchSize s).state.moreData = false)
    ∧ (∀ t : PullState,
        (pullStep fetch batchSize t).requests.head? = some (batchSize, t.offset)) := by
  refine ⟨?_, ?_, ?_, ?_⟩
  · intro h10
    refine ⟨?_, ?_, ?_⟩
    · rcases hr : fetch (batchSize / 2) s.offset with _ | records
      · simp [pullStep, hfail, h10, hr]
      · rcases hl : records.length with _ | k
        · simp [pullStep, hfail, h10, hr, hl]
        · simp [pullStep, hfail, h10, hr, hl]
    · intro hr
      simp [pullStep, hfail, h10, hr]
    · intro records hr hne
      have hlen : ¬ records.length = 0 := by
        simpa [List.length_eq_zero] using hne
      constructor <;> simp [pullStep, hfail, h10, hr, hlen]
  · intro h10
    have h10' : ¬ 10 ≤ batchSize / 2 := by omega
    constructor <;> simp [pullStep, hfail, h10']
  · by_cases h10 : 10 ≤ batchSize / 2
    · rcases hr : fetch (batchSize / 2) s.offset with _ | records
      · left
        simp [pullStep, hfail, h10, hr]
        omega
      · rcases hl : records.length with _ | k
        · right
          simp [pullStep, hfail, h10, hr, hl]
        · left
          simp [pullStep, hfail, h10, hr, hl]
          omega
    · left
      simp [pullStep, hfail, h10]
      omega
  · intro t
    rcases h : fetch batchSize t.offset with _ | records
    · by_cases h10 : 10 ≤ batchSize / 2
      · rcases hr : fetch (batchSize / 2) t.offset with _ | r
        · simp [pullStep, h, h10, hr]
        · rcases hl : r.length with _ | k <;> simp [pullStep, h, h10, hr, hl]
      · simp [pullStep, h, h10]
    · rcases hl : records.length with _ | k <;> simp [pullStep, h, hl]

/-- Claim C3 witness: a concrete failing page at size 100 issues the
primary request and exactly one retry at size 50. -/
theorem C3_witness :
    (pullStep (fun lim _ => if lim = 100 then none else some [[("k", "v")]])
        100 { offset := 0, allData := [], moreData := true }).requests
      = [(100, 0), (50, 0)] :=
  ((C3_adaptive_retry
      (fun lim _ => if lim = 100 then none else some [[("k", "v")]])
      100 { offset := 0, allData := [], moreData := true }
      (by decide) (by decide)).1 (by decide)).1

lemma mkBatches_nil (n : Nat) : mkBatches n ([] : List α) = [] := by
  cases n <;> simp [mkBatches]

lemma mkBatches_cons (m : Nat) (x : α) (xs : List α) :
    mkBatches (m + 1) (x :: xs)
      = (x :: xs).take (m + 1) :: mkBatches (m + 1) ((x :: xs).drop (m + 1)) := by
  simp [mkBatches]

lemma actualBatchSize_pos (operation : String) (batchSize : Nat)
    (hb : 1 ≤ batchSize) : 1 ≤ actualBatchSize operation batchSize := by
  unfold actualBatchSize
  split <;> omega

lemma mkBatches_length_fuel (n : Nat) (hn : 1 ≤ n) :
    ∀ (k : Nat) (data : List α), data.length ≤ k →
      (mkBatches n data).length = (data.length + n - 1) / n := by
  intro k
  induction k with
  | zero =>
    intro data hd
    have hnil : data = [] := List.eq_nil_of_length_eq_zero (by omega)
    subst hnil
    rw [mkBatches_nil]
    have h0 : (n - 1) / n = 0 := Nat.div_eq_of_lt (by omega)
    simp [h0]
  | succ k ih =>
    intro data hd
    cases data with
    | nil =>
      rw [mkBatches_nil]
      have h0 : (n - 1) / n = 0 := Nat.div_eq_of_lt (by omega)
      simp [h0]
    | cons x xs =>
      obtain ⟨m, rfl⟩ : ∃ m, n = m + 1 := ⟨n - 1, by omega⟩
      rw [mkBatches_cons]
      have hdroplen : ((x :: xs).drop (m + 1)).length ≤ k := by
        rw [List.length_drop, List.length_cons]
        simp at hd
        omega
      rw [List.length_cons, ih _ hdroplen, List.length_drop, List.length_cons]
      rcases le_or_lt (xs.length + 1) (m + 1) with hle | hlt
      · have hA : xs.length + 1 - (m + 1) + (m + 1) - 1 = m := by omega
        have hB : xs.length + 1 + (m + 1) - 1 = xs.length + (m + 1) := by omega
        rw [hA, hB, Nat.add_div_right _ (by omega),
          Nat.div_eq_of_lt (show m < m + 1 by omega),
          Nat.div_eq_of_lt (show xs.length < m + 1 by omega)]
      · have hA : xs.length + 1 - (m + 1) + (m + 1) - 1 = xs.length := by omega
        have hB : xs.length + 1 + (m + 1) - 1 = xs.length + (m + 1) := by omega
        rw [hA, hB, Nat.add_div_right _ (by omega)]

lemma mem_mkBatches_length_le (n : Nat) :
    ∀ (k : Nat) (data : List α), data.length ≤ k →
      ∀ b ∈ mkBatches n data, b.length ≤ n := by
  intro k
  induction k with
  | zero =>
    intro data hd b hb
    have hnil : data = [] := List.eq_nil_of_length_eq_zero (by omega)
    subst hnil
    rw [mkBatches_nil] at hb
    cases hb
  | succ k ih =>
    intro data hd b hb
    cases data with
    | nil =>
      rw [mkBatches_nil] at hb
      cases hb
    | cons x xs =>
      cases n with
      | zero => simp [mkBatches] at hb
      | succ m =>
        rw [mkBatches_cons] at hb
        rw [List.mem_cons] at hb
        rcases hb with hb | hb
        · subst hb
          rw [List.length_take]
          omega
        · exact ih ((x :: xs).drop (m + 1))
            (by rw [List.length_drop, List.length_cons]; simp at hd; omega) b hb

lemma mkBatches_flatten_fuel (n : Nat) (hn : 1 ≤ n) :
    ∀ (k : Nat) (data : List α), data.length ≤ k →
      (mkBatches n data).flatten = data := by
  intro k
  induction k with
  | zero =>
    intro data hd
    have hnil : data = [] := List.eq_nil_of_length_eq_zero (by omega)
    subst hnil
    rw [mkBatches_nil]
    rfl
  | succ k ih =>
    intro data hd
    cases data with
    | nil => rw [mkBatches_nil]; rfl
    | cons x xs =>
      obtain ⟨m, rfl⟩ : ∃ m, n = m + 1 := ⟨n - 1, by omega⟩
      rw [mkBatches_cons, List.flatten_cons,
        ih ((x :: xs).drop (m + 1))
          (by rw [List.length_drop, List.length_cons]; simp at hd; omega),
        List.take_append_drop]

lemma mkBatches_dropLast_fuel (n : Nat) (hn : 1 ≤ n) :
    ∀ (k : Nat) (data : List α), data.length ≤ k →
      ∀ b ∈ (mkBatches n data).dropLast, b.length = n := by
  intro k
  induction k with
  | zero =>
    intro data hd b hb
    have hnil : data = [] := List.eq_nil_of_length_eq_zero (by omega)
    subst hnil
    rw [mkBatches_nil] at hb
    cases hb
  | succ k ih =>
    intro data hd b hb
    cases data with
    | nil => rw [mkBatches_nil] at hb; cases hb
    | cons x xs =>
      obtain ⟨m, rfl⟩ : ∃ m, n = m + 1 := ⟨n - 1, by omega⟩
      rw [mkBatches_cons] at hb
      rcases hrest : mkBatches (m + 1) ((x :: xs).drop (m + 1)) with _ | ⟨r, rs⟩
      · rw [hrest] at hb
        simp at hb
      · rw [hrest, List.dropLast_cons₂] at hb
        rw [List.mem_cons] at hb
        rcases hb with hb | hb
        · subst hb
          have hne : (x :: xs).drop (m + 1) ≠ [] := by
            intro hdrop
            rw [hdrop, mkBatches_nil] at hrest
            cases hrest
          have hlen : m + 1 < (x :: xs).length := by
            rcases lt_or_le (m + 1) (x :: xs).length with h | h
            · exact h
            · exact absurd (List.drop_eq_nil_iff.mpr h) hne
          rw [List.length_take]
          omega
        · rw [← hrest] at hb
          exact ih ((x :: xs).drop (m + 1))
            (by rw [List.length_drop, List.length_cons]; simp at hd; omega) b hb

lemma mkBatches_getLast?_fuel (n : Nat) (hn : 1 ≤ n) :
    ∀ (k : Nat) (data : List α), data.length ≤ k → data ≠ [] →
      ∃ b, (mkBatches n data).getLast? = some b ∧
        b.length = if data.length % n = 0 then n else data.length % n := by
  intro k
  induction k with
  | zero =>
    intro data hd hne
    exact absurd (List.eq_nil_of_length_eq_zero (by omega)) hne
  | succ k ih =>
    intro data hd hne
    cases data with
    | nil => exact absurd rfl hne
    | cons x xs =>
      obtain ⟨m, rfl⟩ : ∃ m, n = m + 1 := ⟨n - 1, by omega⟩
      rw [mkBatches_cons]
      rcases hdrop : (x :: xs).drop (m + 1) with _ | ⟨d, ds⟩
      · rw [mkBatches_nil]
        refine ⟨(x :: xs).take (m + 1), List.getLast?_singleton _, ?_⟩
        have hle : (x :: xs).length ≤ m + 1 := List.drop_eq_nil_iff.mp hdrop
        rw [List.length_take]
        rcases eq_or_lt_of_le hle with heq | hlt
        · rw [heq, Nat.mod_self, if_pos rfl]
          omega
        · have hmod : (x :: xs).length % (m + 1) = (x :: xs).length :=
            Nat.mod_eq_of_lt hlt
          have hM0 : ¬ (x :: xs).length = 0 := by simp
          rw [hmod, if_neg hM0]
          omega
      · have hlt : m + 1 < (x :: xs).length := by
          rcases lt_or_le (m + 1) (x :: xs).length with h | h
          · exact h
          · rw [List.drop_eq_nil_iff.mpr h] at hdrop
            cases hdrop
        have hdl := congrArg List.length hdrop
        rw [List.length_drop] at hdl
        obtain ⟨b, hb, hblen⟩ := ih (d :: ds)
          (by
            simp only [List.length_cons] at hd hdl hlt ⊢
            omega)
          (List.cons_ne_nil d ds)
        refine ⟨b, ?_, ?_⟩
        · rw [mkBatches_cons] at hb ⊢
          rw [List.getLast?_cons_cons]
          exact hb
        · rw [hblen]
          have hmodeq : (x :: xs).length % (m + 1) = (d :: ds).length % (m + 1) := by
            rw [← hdl]
            conv_lhs => rw [show (x :: xs).length
              = ((x :: xs).length - (m + 1)) + (m + 1) by omega]
            rw [Nat.add_mod_right]
          rw [hmodeq]

/-- Claim C2: for every requested batch size, `pushData` executes the
merge operation with an effective batch size of at most 10 and every
other operation with an effective batch size of at most 500 — the clamp
bounds `actualBatchSize` and therefore the length of every submitted
batch. -/
theorem C2_batch_clamp (operation : String) (batchSize : Nat)
    (data : List Record) :
    (operation = "merge" → actualBatchSize operation batchSize ≤ 10
      ∧ ∀ b ∈ pushBatches operation batchSize data, b.length ≤ 10)
    ∧ (operation ≠ "merge" → actualBatchSize operation batchSize ≤ 500
      ∧ ∀ b ∈ pushBatches operation batchSize data, b.length ≤ 500) := by
  have hmem : ∀ b ∈ pushBatches operation batchSize data,
      b.length ≤ actualBatchSize operation batchSize :=
    mem_mkBatches_length_le _ data.length data le_rfl
  constructor
  · intro hop
    have hle : actualBatchSize operation batchSize ≤ 10 := by
      unfold actualBatchSize
      rw [if_pos hop]
      omega
    exact ⟨hle, fun b hb => le_trans (hmem b hb) hle⟩
  · intro hop
    have hle : actualBatchSize operation batchSize ≤ 500 := by
      unfold actualBatchSize
      rw [if_neg hop]
      omega
    exact ⟨hle, fun b hb => le_trans (hmem b hb) hle⟩

/-- Claim C2 witness: a merge push with requested batch size 200 runs
with an effective batch size of at most 10. -/
theorem C2_witness :
    actualBatchSize "merge" 200 ≤ 10
    ∧ ∀ b ∈ pushBatches "merge" 200 (List.replicate 25 ([] : Record)),
        b.length ≤ 10 :=
  (C2_batch_clamp "merge" 200 (List.replicate 25 [])).1 rfl

/-- Claim C4: for `M` records and clamped batch size `N ≥ 1`, `pushData`
partitions the records into exactly `ceil(M/N)` contiguous batches in
order (their concatenation is the record list), each of size `N` except
possibly the last, whose size is `M mod N` (or `N` when `N` divides
`M`). -/
theorem C4_batch_partition (operation : String) (batchSize : Nat)
    (data : List Record) (hb : 1 ≤ batchSize) :
    (pushBatches operation batchSize data).length
        = (data.length + actualBatchSize operation batchSize - 1)
            / actualBatchSize operation batchSize
    ∧ (pushBatches operation batchSize data).flatten = data
    ∧ (∀ b ∈ (pushBatches operation batchSize data).dropLast,
        b.length = actualBatchSize operation batchSize)
    ∧ (data ≠ [] →
        ∃ b, (pushBatches operation batchSize data).getLast? = some b ∧
          b.length =
            if data.length % actualBatchSize operation batchSize = 0
            then actualBatchSize operation batchSize
            else data.length % actualBatchSize operation batchSize) := by
  have hn : 1 ≤ actualBatchSize operation batchSize :=
    actualBatchSize_pos operation batchSize hb
  exact ⟨mkBatches_length_fuel _ hn data.length data le_rfl,
    mkBatches_flatten_fuel _ hn data.length data le_rfl,
    mkBatches_dropLast_fuel _ hn data.length data le_rfl,
    mkBatches_getLast?_fuel _ hn data.length data le_rfl⟩

/-- Claim C4 witness: pushing seven records with clamped batch size 3
yields `ceil(7/3) = 3` batches. -/
theorem C4_witness :
    (pushBatches "insert" 3 (List.replicate 7 ([] : Record))).length
      = ((List.replicate 7 ([] : Record)).length
          + actualBatchSize "insert" 3 - 1) / actualBatchSize "insert" 3 :=
  (C4_batch_partition "insert" 3 (List.replicate 7 []) (by decide)).1

lemma pushLoop_counts (net : Nat → FetchOutcome) (total : Nat) :
    ∀ (bs : List (List Record)) (i : Nat),
      (pushLoop net total i bs).1 + (pushLoop net total i bs).2.1 = bs.length := by
  intro bs
  induction bs with
  | nil => intro i; simp [pushLoop]
  | cons b rest ih =>
    intro i
    have h := ih (i + 1)
    by_cases hok : isOk (net i) <;> simp [pushLoop, hok] <;> omega

lemma pushLoop_logs_length (net : Nat → FetchOutcome) (total : Nat) :
    ∀ (bs : List (List Record)) (i : Nat),
      (pushLoop net total i bs).2.2.1.length = bs.length := by
  intro bs
  induction bs with
  | nil => intro i; simp [pushLoop]
  | cons b rest ih =>
    intro i
    simp [pushLoop, ih (i + 1)]

lemma pushLoop_logs_get? (net : Nat → FetchOutcome) (total : Nat) :
    ∀ (bs : List (List Record)) (i j : Nat), j < bs.length →
      (pushLoop net total i bs).2.2.1[j]?
        = some (mkLogEntry (i + j) (net (i + j))) := by
  intro bs
  induction bs with
  | nil => intro i j h; simp at h
  | cons b rest ih =>
    intro i j h
    cases j with
    | zero => simp [pushLoop]
    | succ j =>
      have harith : i + (j + 1) = (i + 1) + j := by omega
      rw [harith]
      simp only [pushLoop, List.getElem?_cons_succ]
      exact ih (i + 1) j (by simp at h; omega)

lemma pushLoop_prog (net : Nat → FetchOutcome) (total : Nat) :
    ∀ (bs : List (List Record)) (i : Nat),
      (pushLoop net total i bs).2.2.2
        = (List.range bs.length).map (fun j => (i + j + 1, total)) := by
  intro bs
  induction bs with
  | nil => intro i; simp [pushLoop]
  | cons b rest ih =>
    intro i
    simp only [pushLoop, List.length_cons]
    rw [ih (i + 1), List.range_succ_eq_map, List.map_cons, List.map_map]
    congr 1
    congr 1
    funext j
    simp [Function.comp]
    omega

/-- Claim C5: after `pushData` returns, `success + failures = total`,
where `total` is the number of batches submitted — each batch increments
exactly one of the two counters. -/
theorem C5_counts_invariant (net : Nat → FetchOutcome)
    (objectName operation : String) (data : List Record) (batchSize : Nat) :
    (pushData net objectName data operation batchSize).1.success
        + (pushData net objectName data operation batchSize).1.failures
      = (pushData net objectName data operation batchSize).1.total := by
  simpa [pushData] using
    pushLoop_counts net (pushBatches operation batchSize data).length
      (pushBatches operation batchSize data) 0

/-- Claim C6: in `pushData` the failure of one batch never aborts the
remaining batches — the result log holds exactly one entry per batch,
in submission order, the entry at index `j` being determined by batch
`j`'s outcome (success or failure, with status, message and raw
response body or error trace), and the progress callback fires exactly
once after every batch as `(batchIndexCompleted, totalBatches)`. -/
theorem C6_batch_isolation (net : Nat → FetchOutcome)
    (objectName operation : String) (data : List Record) (batchSize : Nat) :
    ((pushData net objectName data operation batchSize).1.logs).length
        = (pushData net objectName data operation batchSize).1.total
    ∧ (∀ j, j < (pushData net objectName data operation batchSize).1.total →
        ((pushData net objectName data operation batchSize).1.logs)[j]?
          = some (mkLogEntry j (net j)))
    ∧ (pushData net objectName data operation batchSize).2
        = (List.range (pushData net objectName data operation batchSize).1.total).map
            (fun j => (j + 1, (pushData net objectName data operation batchSize).1.total)) := by
  refine ⟨?_, ?_, ?_⟩
  · simpa [pushData] using
      pushLoop_logs_length net (pushBatches operation batchSize data).length
        (pushBatches operation batchSize data) 0
  · intro j hj
    have h := pushLoop_logs_get? net (pushBatches operation batchSize data).length
      (pushBatches operation batchSize data) 0 j (by simpa [pushData] using hj)
    simpa [pushData] using h
  · simpa [pushData] using
      pushLoop_prog net (pushBatches operation batchSize data).length
        (pushBatches operation batchSize data) 0

/-- Claim C6 witness: a two-batch push whose second batch fails still
logs entry 2 and reports progress (2, 2). -/
theorem C6_witness :
    ((pushData (fun i => if i = 0 then FetchOutcome.ok 200 "fine"
          else FetchOutcome.httpError 500 "boom")
        "obj" (List.replicate 2 ([] : Record)) "insert" 1).1.logs).length
      = (pushData (fun i => if i = 0 then FetchOutcome.ok 200 "fine"
          else FetchOutcome.httpError 500 "boom")
        "obj" (List.replicate 2 ([] : Record)) "insert" 1).1.total :=
  (C6_batch_isolation
      (fun i => if i = 0 then FetchOutcome.ok 200 "fine"
        else FetchOutcome.httpError 500 "boom")
      "obj" "insert" (List.replicate 2 []) 1).1

/-- Claim C10: for an empty records array, `pushData` returns a result
with `total = 0`, `success = 0`, `failures = 0` and an empty log, never
invokes the progress callback, and performs no write request at all
(its result does not depend on the network oracle). -/
theorem C10_empty_push (net net2 : Nat → FetchOutcome)
    (objectName operation : String) (batchSize : Nat) (hb : 1 ≤ batchSize) :
    (pushData net objectName [] operation batchSize).1.total = 0
    ∧ (pushData net objectName [] operation batchSize).1.success = 0
    ∧ (pushData net objectName [] operation batchSize).1.failures = 0
    ∧ (pushData net objectName [] operation batchSize).1.logs = []
    ∧ (pushData net objectName [] operation batchSize).2 = []
    ∧ pushData net objectName [] operation batchSize
        = pushData net2 objectName [] operation batchSize := by
  refine ⟨?_, ?_, ?_, ?_, ?_, ?_⟩ <;>
    simp [pushData, pushBatches, mkBatches_nil, pushLoop]

/-- Claim C10 witness: an empty push with requested batch size 200
submits zero batches. -/
theorem C10_witness :
    (pushData (fun _ => FetchOutcome.ok 200 "") "obj" [] "insert" 200).1.total
      = 0 :=
  (C10_empty_push (fun _ => FetchOutcome.ok 200 "")
    (fun _ => FetchOutcome.netError "down" "trace") "obj" "insert" 200
    (by decide)).1

lemma foldl_lookupStep_no_match (key : String) :
    ∀ (vf : List String) (acc : Option String),
      (∀ f ∈ vf, toLowerCase f ≠ key) →
      vf.foldl (lookupStep key) acc = acc := by
  intro vf
  induction vf with
  | nil => intro acc _; rfl
  | cons g gs ih =>
    intro acc h
    simp only [List.foldl_cons]
    rw [show lookupStep key acc g = acc from by
      simp [lookupStep, h g (List.mem_cons_self g gs)]]
    exact ih acc (fun f hf => h f (List.mem_cons_of_mem g hf))

lemma foldl_lookupStep_some_spec (key : String) :
    ∀ (vf : List String) (acc : Option String) (f : String),
      vf.foldl (lookupStep key) acc = some f →
      acc = some f ∨ (f ∈ vf ∧ toLowerCase f = key) := by
  intro vf
  induction vf with
  | nil => intro acc f h; exact Or.inl h
  | cons g gs ih =>
    intro acc f h
    simp only [List.foldl_cons] at h
    rcases ih (lookupStep key acc g) f h with h' | h'
    · by_cases hg : toLowerCase g = key
      · rw [show lookupStep key acc g = some g from by simp [lookupStep, hg]] at h'
        cases h'
        exact Or.inr ⟨List.mem_cons_self g gs, hg⟩
      · rw [show lookupStep key acc g = acc from by simp [lookupStep, hg]] at h'
        exact Or.inl h'
    · exact Or.inr ⟨List.mem_cons_of_mem g h'.1, h'.2⟩

lemma foldl_lookupStep_stays_some (key : String) :
    ∀ (vf : List String) (g : String),
      ∃ f, vf.foldl (lookupStep key) (some g) = some f := by
  intro vf
  induction vf with
  | nil => intro g; exact ⟨g, rfl⟩
  | cons x xs ih =>
    intro g
    simp only [List.foldl_cons]
    by_cases hx : toLowerCase x = key
    · rw [show lookupStep key (some g) x = some x from by simp [lookupStep, hx]]
      exact ih x
    · rw [show lookupStep key (some g) x = some g from by simp [lookupStep, hx]]
      exact ih g

lemma foldl_lookupStep_exists (key : String) :
    ∀ (vf : List String) (acc : Option String),
      (∃ f ∈ vf, toLowerCase f = key) →
      ∃ f, vf.foldl (lookupStep key) acc = some f := by
  intro vf
  induction vf with
  | nil => intro acc h; rcases h with ⟨f, hf, _⟩; cases hf
  | cons g gs ih =>
    intro acc h
    simp only [List.foldl_cons]
    by_cases hg : toLowerCase g = key
    · rw [show lookupStep key acc g = some g from by simp [lookupStep, hg]]
      exact foldl_lookupStep_stays_some key gs g
    · rw [show lookupStep key acc g = acc from by simp [lookupStep, hg]]
      rcases h with ⟨f, hf, hkey⟩
      rw [List.mem_cons] at hf
      rcases hf with rfl | hf
      · exact absurd hkey hg
      · exact ih acc ⟨f, hf, hkey⟩

lemma lookupLower_none (vf : List String) (key : String)
    (h : ∀ f ∈ vf, toLowerCase f ≠ key) : lookupLower vf key = none :=
  foldl_lookupStep_no_match key vf none h

lemma lookupLower_mem (vf : List String) (key f : String)
    (h : lookupLower vf key = some f) : f ∈ vf ∧ toLowerCase f = key := by
  rcases foldl_lookupStep_some_spec key vf none f h with h' | h'
  · cases h'
  · exact h'

lemma lookupLower_exists (vf : List String) (key : String)
    (h : ∃ f ∈ vf, toLowerCase f = key) : ∃ f, lookupLower vf key = some f :=
  foldl_lookupStep_exists key vf none h

/-- Claim C7: `autoMapColumns` matches each local column against the
remote field names in the fixed priority order — exact case-sensitive
first, then case-insensitive, then case-insensitive after replacing the
first underscore with a space, then case-insensitive after replacing
the first space with an underscore, a later rule firing only when every
earlier rule has no candidate — and a column with no match under any
rule stays unmapped; in particular mapping columns
`["Account_Name", "Email"]` onto fields `["Account Name", "email"]`
yields `Account_Name ↦ "Account Name"` and `Email ↦ "email"`. -/
theorem C7_automap_priority (vaultFields : List String) (column : String) :
    (column ∈ vaultFields → autoMapEntry vaultFields column = some column)
    ∧ (column ∉ vaultFields →
        ∀ g ∈ vaultFields, toLowerCase g = toLowerCase column →
        ∃ f, autoMapEntry vaultFields column = some f
          ∧ f ∈ vaultFields ∧ toLowerCase f = toLowerCase column)
    ∧ ((∀ f ∈ vaultFields, f ≠ column ∧ toLowerCase f ≠ toLowerCase column) →
        ∀ g ∈ vaultFields,
          toLowerCase g = toLowerCase (replaceFirstStr column '_' ' ') →
        ∃ f, autoMapEntry vaultFields column = some f
          ∧ f ∈ vaultFields
          ∧ toLowerCase f = toLowerCase (replaceFirstStr column '_' ' '))
    ∧ ((∀ f ∈ vaultFields, f ≠ column ∧ toLowerCase f ≠ toLowerCase column
          ∧ toLowerCase f ≠ toLowerCase (replaceFirstStr column '_' ' ')) →
        ∀ g ∈ vaultFields,
          toLowerCase g = toLowerCase (replaceFirstStr column ' ' '_') →
        ∃ f, autoMapEntry vaultFields column = some f
          ∧ f ∈ vaultFields
          ∧ toLowerCase f = toLowerCase (replaceFirstStr column ' ' '_'))
    ∧ ((∀ f ∈ vaultFields, f ≠ column ∧ toLowerCase f ≠ toLowerCase column
          ∧ toLowerCase f ≠ toLowerCase (replaceFirstStr column '_' ' ')
          ∧ toLowerCase f ≠ toLowerCase (replaceFirstStr column ' ' '_')) →
        autoMapEntry vaultFields column = none)
    ∧ autoMapColumns [] ["Account_Name", "Email"] ["Account Name", "email"]
        = [("Account_Name", "Account Name"), ("Email", "email")] := by
  refine ⟨?_, ?_, ?_, ?_, ?_, by decide⟩
  · intro h
    simp [autoMapEntry, h]
  · intro hnot g hg hkey
    obtain ⟨f, hf⟩ := lookupLower_exists vaultFields (toLowerCase column)
      ⟨g, hg, hkey⟩
    have hspec := lookupLower_mem vaultFields _ f hf
    exact ⟨f, by simp [autoMapEntry, hnot, hf], hspec.1, hspec.2⟩
  · intro h12 g hg hkey
    have hnot : column ∉ vaultFields := fun hc => (h12 column hc).1 rfl
    have hnone : lookupLower vaultFields (toLowerCase column) = none :=
      lookupLower_none _ _ (fun f hf => (h12 f hf).2)
    obtain ⟨f, hf⟩ := lookupLower_exists vaultFields
      (toLowerCase (replaceFirstStr column '_' ' ')) ⟨g, hg, hkey⟩
    have hspec := lookupLower_mem vaultFields _ f hf
    exact ⟨f, by simp [autoMapEntry, hnot, hnone, hf], hspec.1, hspec.2⟩
  · intro h123 g hg hkey
    have hnot : column ∉ vaultFields := fun hc => (h123 column hc).1 rfl
    have hnone1 : lookupLower vaultFields (toLowerCase column) = none :=
      lookupLower_none _ _ (fun f hf => (h123 f hf).2.1)
    have hnone2 : lookupLower vaultFields
        (toLowerCase (replaceFirstStr column '_' ' ')) = none :=
      lookupLower_none _ _ (fun f hf => (h123 f hf).2.2)
    obtain ⟨f, hf⟩ := lookupLower_exists vaultFields
      (toLowerCase (replaceFirstStr column ' ' '_')) ⟨g, hg, hkey⟩
    have hspec := lookupLower_mem vaultFields _ f hf
    exact ⟨f, by simp [autoMapEntry, hnot, hnone1, hnone2, hf],
      hspec.1, hspec.2⟩
  · intro h
    have hnot : column ∉ vaultFields := fun hc => (h column hc).1 rfl
    have hnone1 : lookupLower vaultFields (toLowerCase column) = none :=
      lookupLower_none _ _ (fun f hf => (h f hf).2.1)
    have hnone2 : lookupLower vaultFields
        (toLowerCase (replaceFirstStr column '_' ' ')) = none :=
      lookupLower_none _ _ (fun f hf => (h f hf).2.2.1)
    have hnone3 : lookupLower vaultFields
        (toLowerCase (replaceFirstStr column ' ' '_')) = none :=
      lookupLower_none _ _ (fun f hf => (h f hf).2.2.2)
    simp [autoMapEntry, hnot, hnone1, hnone2, hnone3]

/-- Claim C7 witness: an exact case-sensitive hit maps a column to
itself. -/
theorem C7_witness : autoMapEntry ["email"] "email" = some "email" :=
  (C7_automap_priority ["email"] "email").1 (by decide)

lemma mem_setColumnMapping (m : List (String × String)) (k v : String)
    (p : String × String) (h : p ∈ setColumnMapping m k v) :
    p ∈ m ∨ p = (k, v) := by
  unfold setColumnMapping at h
  split at h
  · rcases List.mem_map.mp h with ⟨q, hq, hqe⟩
    by_cases hqk : q.1 = k
    · rw [if_pos hqk] at hqe
      exact Or.inr hqe.symm
    · rw [if_neg hqk] at hqe
      exact Or.inl (hqe ▸ hq)
  · rcases List.mem_append.mp h with h' | h'
    · exact Or.inl h'
    · rcases List.mem_singleton.mp h' with rfl
      exact Or.inr rfl

lemma mem_autoMapColumns_fold (vf : List String) :
    ∀ (cols : List String) (m : List (String × String)) (p : String × String),
      p ∈ cols.foldl
        (fun m c =>
          match autoMapEntry vf c with
          | some f => setColumnMapping m c f
          | none => m) m →
      p ∈ m ∨ (p.1 ∈ cols ∧ autoMapEntry vf p.1 = some p.2) := by
  intro cols
  induction cols with
  | nil => intro m p h; exact Or.inl h
  | cons c cs ih =>
    intro m p h
    simp only [List.foldl_cons] at h
    rcases ih _ p h with h' | h'
    · rcases hentry : autoMapEntry vf c with _ | f
      · rw [hentry] at h'
        exact Or.inl h'
      · rw [hentry] at h'
        rcases mem_setColumnMapping m c f p h' with h'' | h''
        · exact Or.inl h''
        · right
          rw [h'']
          exact ⟨List.mem_cons_self c cs, hentry⟩
    · exact Or.inr ⟨List.mem_cons_of_mem c h'.1, h'.2⟩

/-- Claim C8: running `autoMapColumns` fully replaces the prior mapping
state — the result is independent of whatever mapping (automatic or
manually edited) was in place before, and every entry of the new
mapping is keyed by a current column with the value produced by the
matching rules for the current field list (no residual entries). -/
theorem C8_automap_reset (prior1 prior2 : List (String × String))
    (columns vaultFields : List String) :
    autoMapColumns prior1 columns vaultFields
        = autoMapColumns prior2 columns vaultFields
    ∧ ∀ p ∈ autoMapColumns prior1 columns vaultFields,
        p.1 ∈ columns ∧ autoMapEntry vaultFields p.1 = some p.2 := by
  constructor
  · rfl
  · intro p hp
    rcases mem_autoMapColumns_fold vaultFields columns
      (clearColumnMappings prior1) p hp with h | h
    · simp [clearColumnMappings] at h
    · exact h

/-- Claim C8 witness: a stale manual mapping entry does not survive a
re-run of the auto-mapper. -/
theorem C8_witness :
    autoMapColumns [("Residual", "Old")] ["Email"] ["email"]
      = autoMapColumns [] ["Email"] ["email"] :=
  (C8_automap_reset [("Residual", "Old")] [] ["Email"] ["email"]).1

lemma metaLoop_pairs (fetch : String → Option (List String)) (total : Nat) :
    ∀ (os : List String) (i : Nat),
      (metaLoop fetch total i os).1 = (os.map (objPairs fetch)).flatten := by
  intro os
  induction os with
  | nil => intro i; rfl
  | cons o rest ih =>
    intro i
    simp [metaLoop, ih (i + 1)]

lemma metaLoop_prog (fetch : String → Option (List String)) (total : Nat) :
    ∀ (os : List String) (i : Nat),
      (metaLoop fetch total i os).2
        = (List.range os.length).map (fun j => (i + j + 1, total)) := by
  intro os
  induction os with
  | nil => intro i; simp [metaLoop]
  | cons o rest ih =>
    intro i
    simp only [metaLoop, List.length_cons]
    rw [ih (i + 1), List.range_succ_eq_map, List.map_cons, List.map_map]
    congr 1
    congr 1
    funext j
    simp [Function.comp]
    omega

/-- Claim C9: in `exportMetadata` a per-object field-fetch failure makes
that object contribute zero object-field pairs while collection
continues with the remaining objects (the result is the concatenation
of every object's own pairs), and the progress callback fires once per
object regardless of that object's outcome; in particular for objects
`[A, B]` where B's fetch fails the result holds only A's pairs and the
final progress report is `(2, 2)`. -/
theorem C9_metadata_collect (objects : List String)
    (fetch : String → Option (List String)) :
    (exportMetadata fetch objects).1
        = ((sortStrings objects).map (objPairs fetch)).flatten
    ∧ (exportMetadata fetch objects).2
        = (List.range (sortStrings objects).length).map
            (fun j => (j + 1, (sortStrings objects).length))
    ∧ (∀ o, fetch o = none →
        ∀ p ∈ (exportMetadata fetch objects).1, p.1 ≠ o)
    ∧ exportMetadata exFetch ["A", "B"]
        = ([("A", "f1"), ("A", "f2")], [(1, 2), (2, 2)]) := by
  refine ⟨metaLoop_pairs fetch _ _ 0, ?_, ?_, by decide⟩
  · simpa using metaLoop_prog fetch (sortStrings objects).length
      (sortStrings objects) 0
  · intro o ho p hp
    rw [show (exportMetadata fetch objects).1
        = ((sortStrings objects).map (objPairs fetch)).flatten
      from metaLoop_pairs fetch _ _ 0] at hp
    rcases List.mem_flatten.mp hp with ⟨l, hl, hpl⟩
    rcases List.mem_map.mp hl with ⟨o', _, rfl⟩
    unfold objPairs at hpl
    rcases hfo : fetch o' with _ | fields
    · rw [hfo] at hpl
      cases hpl
    · rw [hfo] at hpl
      rcases List.mem_map.mp hpl with ⟨f, _, rfl⟩
      intro heq
      simp at heq
      rw [heq, ho] at hfo
      cases hfo

/-- Claim C9 witness: the failing object B of the two-object scenario
contributes no pair, so the collected pair for field f1 belongs to A. -/
theorem C9_witness : (("A", "f1") : String × String).1 ≠ "B" :=
  (C9_metadata_collect ["A", "B"] exFetch).2.2.1 "B" (by decide)
    ("A", "f1") (by decide)

end VaultLoader
